import Mathlib

/-!
Verification of the cache-aside user service of the go-microservice-grpc
repository.

The embedding covers, from the source:
  * the `User` entity (internal/model, as used by internal/repository and
    internal/service),
  * `UserService` (internal/service/user_service.go): cache-aside reads and
    write-invalidation, with the record store's and the cache's responses
    supplied as explicit parameters, and the cache commands issued by an
    operation recorded as a trace,
  * `UserRepository` (internal/repository/user_repository.go): the SQL
    semantics of the queries over an explicit database state,
  * `UserServer` (internal/server): the gRPC handlers' pagination clamping
    and error-code mapping.

Time instants are modelled as integers; each call the Go code makes to
`time.Now()` is a separate reading supplied as a parameter.
-/

/-- The `model.User` entity: id, email, name, and the two timestamps
(instants modelled as `Int`). -/
structure User where
  id : Int
  email : String
  name : String
  createdAt : Int
  updatedAt : Int
  deriving DecidableEq

/-- Error taxonomy of the record store as observed by the service layer:
a uniqueness violation on email, a row-not-found, or any other database
failure. -/
inductive StoreErr where
  | uniqueViolation : StoreErr
  | notFound : StoreErr
  | connFailure : StoreErr
  deriving DecidableEq

/-- A command the service issues to the cache (`pkg/cache/redis.go`:
`Get`, `Set` with a TTL in seconds, `Del`). -/
inductive CacheOp where
  | get : String → CacheOp
  | set : String → String → Int → CacheOp
  | del : String → CacheOp
  deriving DecidableEq

/-- The cache's behaviour during one operation: the value or error each
`Get` returns, and the outcome of each `Set`/`Del` (which the service
code discards). `Except.error ()` on a get covers both a miss
(`redis.Nil`) and a connectivity failure. -/
structure CacheEnv where
  getRes : String → Except Unit String
  setRes : String → String → Except Unit Unit
  delRes : String → Except Unit Unit

/-- The per-id cache key: `fmt.Sprintf("user:%d", id)`. -/
def userKey (id : Int) : String := "user:" ++ toString id

/-- The aggregate list cache key. -/
def usersListKey : String := "users:list"

/-! ### Serialized cache snapshot

`model/user.go` (and hence the exact `encoding/json` field layout) is not
part of the sources; per the spec any self-describing encoding that
round-trips all five fields losslessly is acceptable.  The codec below is
that model: each field is terminated by a bar character, the two string
fields are escaped so that a bar never occurs unescaped inside a field,
and the three integer fields are printed in decimal. -/

/-- Character for a decimal digit `d < 10`. -/
def digitChar (d : Nat) : Char := Char.ofNat (48 + d)

/-- Inverse of `digitChar` on actual digit characters. -/
def charDigit (c : Char) : Option Nat :=
  if 48 ≤ c.toNat ∧ c.toNat ≤ 57 then some (c.toNat - 48) else none

/-- Fuelled most-significant-first decimal printer; `fuel ≥ n` is always
enough fuel. -/
def natDigitsGo : Nat → Nat → List Char → List Char
  | 0, n, acc => digitChar n :: acc
  | fuel + 1, n, acc =>
      if n < 10 then digitChar n :: acc
      else natDigitsGo fuel (n / 10) (digitChar (n % 10) :: acc)

/-- Decimal digits of `n`, most significant first. -/
def natDigits (n : Nat) : List Char := natDigitsGo n n []

/-- Read decimal digits left to right, accumulating the value. -/
def digitsToNatAux : List Char → Nat → Option Nat
  | [], acc => some acc
  | c :: cs, acc =>
      match charDigit c with
      | some d => digitsToNatAux cs (acc * 10 + d)
      | none => none

/-- Parse a non-empty all-digit character list. -/
def digitsToNat (l : List Char) : Option Nat :=
  if l = [] then none else digitsToNatAux l 0

/-- Decimal characters of an integer (minus sign for negatives). -/
def intChars (i : Int) : List Char :=
  if i < 0 then '-' :: natDigits i.natAbs else natDigits i.toNat

/-- Parse the decimal characters of an integer. -/
def decIntChars : List Char → Option Int
  | [] => none
  | c :: cs =>
      if c = '-' then (digitsToNat cs).map (fun n => -(Int.ofNat n))
      else (digitsToNat (c :: cs)).map (fun n => Int.ofNat n)

/-- Escape one character so that an unescaped bar never occurs inside a
serialized string field. -/
def escChar (c : Char) : List Char :=
  if c = '\\' then ['\\', '\\']
  else if c = '|' then ['\\', 'p']
  else [c]

/-- Escape a character list field. -/
def escapeChars : List Char → List Char
  | [] => []
  | c :: cs => escChar c ++ escapeChars cs

/-- Consume an escaped field up to its terminating unescaped bar; return
the unescaped field and the remainder. -/
def unescapeUntilBar : List Char → Option (List Char × List Char)
  | [] => none
  | c :: cs =>
      if c = '\\' then
        match cs with
        | [] => none
        | e :: cs2 =>
            match (if e = '\\' then some '\\' else if e = 'p' then some '|' else none) with
            | some d => (unescapeUntilBar cs2).map (fun p => (d :: p.1, p.2))
            | none => none
      else if c = '|' then some ([], cs)
      else (unescapeUntilBar cs).map (fun p => (c :: p.1, p.2))

/-- Split a bar-free field off at its terminating bar. -/
def splitAtBar : List Char → Option (List Char × List Char)
  | [] => none
  | c :: cs =>
      if c = '|' then some ([], cs)
      else (splitAtBar cs).map (fun p => (c :: p.1, p.2))

/-- Modelled from the spec: the serialized cache snapshot of a `User`
(`model/user.go` and its `encoding/json` layout are not among the
sources); a self-describing encoding of all five fields that round-trips
losslessly, as §6 of the spec requires. -/
def marshalUser (u : User) : String :=
  ⟨intChars u.id ++ '|' ::
    (intChars u.createdAt ++ '|' ::
      (intChars u.updatedAt ++ '|' ::
        (escapeChars u.email.data ++ '|' ::
          (escapeChars u.name.data ++ '|' :: []))))⟩

/-- Modelled from the spec: inverse of `marshalUser` (deserialization of a
cached snapshot); fails on any string not produced by `marshalUser`. -/
def unmarshalUser (s : String) : Option User :=
  (splitAtBar s.data).bind fun p1 =>
  (decIntChars p1.1).bind fun uid =>
  (splitAtBar p1.2).bind fun p2 =>
  (decIntChars p2.1).bind fun ca =>
  (splitAtBar p2.2).bind fun p3 =>
  (decIntChars p3.1).bind fun ua =>
  (unescapeUntilBar p3.2).bind fun p4 =>
  (unescapeUntilBar p4.2).bind fun p5 =>
  if p5.2 = [] then
    some { id := uid, email := ⟨p4.1⟩, name := ⟨p5.1⟩, createdAt := ca, updatedAt := ua }
  else none

/-! ### UserService (internal/service/user_service.go)

Each operation takes the record store's responses and the cache's
behaviour as parameters and returns its result together with the trace of
cache commands it issued, in order.  `let _ := ...` mirrors the Go code
discarding the outcome of a cache `Set`/`Delete`. -/

namespace UserService

/-- Embeds `UserService.CreateUser`: build the user with two successive clock
readings, persist via the store (which assigns the id), and on success
delete the aggregate list key. -/
def CreateUser (env : CacheEnv) (email name : String) (now1 now2 : Int)
    (storeCreate : Except StoreErr Int) :
    Except StoreErr User × List CacheOp :=
  match storeCreate with
  | .error e => (.error e, [])
  | .ok newId =>
      let user : User :=
        { id := newId, email := email, name := name, createdAt := now1, updatedAt := now2 }
      let _ := env.delRes usersListKey
      (.ok user, [CacheOp.del usersListKey])

/-- Embeds `UserService.GetUser`: cache-aside read.  A successful cache get of a
non-empty string that deserializes is returned at once; anything else
falls through to the store, and a successful store read is written back
with a 300-second (5-minute) TTL. -/
def GetUser (env : CacheEnv) (storeGet : Except StoreErr User) (id : Int) :
    Except StoreErr User × List CacheOp :=
  let cacheKey := userKey id
  let fallThrough : Except StoreErr User × List CacheOp :=
    match storeGet with
    | .error e => (.error e, [CacheOp.get cacheKey])
    | .ok u =>
        let data := marshalUser u
        let _ := env.setRes cacheKey data
        (.ok u, [CacheOp.get cacheKey, CacheOp.set cacheKey data 300])
  match env.getRes cacheKey with
  | .ok cached =>
      if cached ≠ "" then
        match unmarshalUser cached with
        | some u => (.ok u, [CacheOp.get cacheKey])
        | none => fallThrough
      else fallThrough
  | .error _ => fallThrough

/-- Embeds `UserService.ListUsers`: compute the offset, query the store for the
page and then for the total; no cache interaction at all. -/
def ListUsers (storeList : Int → Int → Except StoreErr (List User))
    (storeCount : Except StoreErr Int) (page pageSize : Int) :
    Except StoreErr (List User × Int) :=
  let offset := (page - 1) * pageSize
  match storeList pageSize offset with
  | .error e => .error e
  | .ok users =>
      match storeCount with
      | .error e => .error e
      | .ok total => .ok (users, total)

/-- Embeds `UserService.UpdateUser`: read-modify-write.  Fetch by id from the
store, overwrite email and name, refresh `updatedAt`, persist; on success
delete the per-id key and the aggregate list key. -/
def UpdateUser (env : CacheEnv) (id : Int) (email name : String) (now : Int)
    (storeGet : Except StoreErr User) (storeUpdate : Except StoreErr Unit) :
    Except StoreErr User × List CacheOp :=
  match storeGet with
  | .error e => (.error e, [])
  | .ok u0 =>
      let user := { u0 with email := email, name := name, updatedAt := now }
      match storeUpdate with
      | .error e => (.error e, [])
      | .ok _ =>
          let cacheKey := userKey id
          let _ := env.delRes cacheKey
          let _ := env.delRes usersListKey
          (.ok user, [CacheOp.del cacheKey, CacheOp.del usersListKey])

/-- Embeds `UserService.DeleteUser`: persist the delete; on success delete the
per-id key and the aggregate list key. -/
def DeleteUser (env : CacheEnv) (id : Int) (storeDelete : Except StoreErr Unit) :
    Except StoreErr Unit × List CacheOp :=
  match storeDelete with
  | .error e => (.error e, [])
  | .ok _ =>
      let cacheKey := userKey id
      let _ := env.delRes cacheKey
      let _ := env.delRes usersListKey
      (.ok (), [CacheOp.del cacheKey, CacheOp.del usersListKey])

end UserService

/-- The warm-hit test of `UserService.GetUser` in isolation: the user the
cache leg yields, if any (get succeeded, value non-empty, deserializes). -/
def cacheHitValue (r : Except Unit String) : Option User :=
  match r with
  | .error _ => none
  | .ok cached => if cached ≠ "" then unmarshalUser cached else none

/-- Replay the cache commands of a trace against a cache state (an
association list), assuming each command reaches the cache and succeeds. -/
def applyCacheOps (st : List (String × String)) : List CacheOp → List (String × String)
  | [] => st
  | CacheOp.get _ :: rest => applyCacheOps st rest
  | CacheOp.set k v _ :: rest =>
      applyCacheOps ((k, v) :: st.filter (fun p => p.1 ≠ k)) rest
  | CacheOp.del k :: rest => applyCacheOps (st.filter (fun p => p.1 ≠ k)) rest

/-! ### UserRepository (internal/repository/user_repository.go) over an
explicit database state.

`Db.rows` are the rows of the `users` table in insertion order and
`Db.nextId` the BIGSERIAL counter.  The migration (migrations/init.sql)
puts a `UNIQUE` constraint on `email` and `NOT NULL` on `email` and
`name`; a Go string is never NULL, so only the uniqueness constraint can
reject a row.  Postgres rejects a negative `LIMIT` or `OFFSET`. -/

structure Db where
  rows : List User
  nextId : Int
  deriving DecidableEq

/-- Descending-by-`createdAt` insertion (stable). -/
def insertByCreatedDesc (u : User) : List User → List User
  | [] => [u]
  | v :: vs =>
      if v.createdAt ≤ u.createdAt then u :: v :: vs
      else v :: insertByCreatedDesc u vs

/-- The `ORDER BY created_at DESC` ordering. -/
def orderByCreatedDesc : List User → List User
  | [] => []
  | u :: us => insertByCreatedDesc u (orderByCreatedDesc us)

namespace UserRepository

/-- Embeds `UserRepository.Create`: `INSERT ... RETURNING id` under the email
uniqueness constraint; returns the new state and the assigned id. -/
def Create (db : Db) (email name : String) (createdAt updatedAt : Int) :
    Except StoreErr (Db × Int) :=
  if db.rows.any (fun u => u.email == email) then .error .uniqueViolation
  else
    .ok ({ rows := db.rows ++
             [{ id := db.nextId, email := email, name := name,
                createdAt := createdAt, updatedAt := updatedAt }],
           nextId := db.nextId + 1 }, db.nextId)

/-- Embeds `UserRepository.GetByID`: `SELECT ... WHERE id = $1`; no row is the
not-found error. -/
def GetByID (db : Db) (id : Int) : Except StoreErr User :=
  match db.rows.find? (fun u => u.id == id) with
  | some u => .ok u
  | none => .error .notFound

/-- Embeds `UserRepository.Count`: `SELECT COUNT(*) FROM users`. -/
def Count (db : Db) : Except StoreErr Int :=
  .ok (db.rows.length : Int)

/-- Embeds `UserRepository.Update`: `UPDATE users SET email, name, updated_at
WHERE id`; zero affected rows is not an error, a duplicate email on a
different id violates the unique constraint. -/
def Update (db : Db) (user : User) : Except StoreErr Db :=
  if db.rows.any (fun r => r.email == user.email && r.id != user.id) then
    .error .uniqueViolation
  else
    .ok { db with rows := db.rows.map (fun r =>
      if r.id == user.id then
        { r with email := user.email, name := user.name, updatedAt := user.updatedAt }
      else r) }

/-- Embeds `UserRepository.Delete`: `DELETE FROM users WHERE id = $1`; deleting
zero rows is not an error. -/
def Delete (db : Db) (id : Int) : Except StoreErr Db :=
  .ok { db with rows := db.rows.filter (fun r => r.id != id) }

/-- Embeds `UserRepository.List`: `SELECT ... ORDER BY created_at DESC LIMIT $1
OFFSET $2` (named `listRows` here because `List` would shadow the list
type). -/
def listRows (db : Db) (limit offset : Int) : Except StoreErr (List User) :=
  if limit < 0 ∨ offset < 0 then .error .connFailure
  else .ok (((orderByCreatedDesc db.rows).drop offset.toNat).take limit.toNat)

end UserRepository

/-! ### Service composed with the repository over a database state -/

/-- Runs `UserService.CreateUser` against a database state: the service run
(result, cache trace) together with the database state afterwards. -/
def CreateUserFull (env : CacheEnv) (db : Db) (email name : String) (now1 now2 : Int) :
    (Except StoreErr User × List CacheOp) × Db :=
  let res := UserRepository.Create db email name now1 now2
  ( UserService.CreateUser env email name now1 now2 (res.map Prod.snd),
    match res with
    | .ok p => p.1
    | .error _ => db )

/-- Runs `UserService.DeleteUser` against a database state. -/
def DeleteUserFull (env : CacheEnv) (db : Db) (id : Int) :
    (Except StoreErr Unit × List CacheOp) × Db :=
  let res := UserRepository.Delete db id
  ( UserService.DeleteUser env id (res.map (fun _ => ())),
    match res with
    | .ok db2 => db2
    | .error _ => db )

/-- Runs `UserService.ListUsers` against a database state. -/
def ListUsersFull (db : Db) (page pageSize : Int) :
    Except StoreErr (List User × Int) :=
  UserService.ListUsers (fun limit offset => UserRepository.listRows db limit offset)
    (UserRepository.Count db) page pageSize

/-! ### UserServer handlers (internal/server/user_server.go) -/

/-- gRPC status codes used by the handlers, plus the ones the spec's
taxonomy names. -/
inductive Code where
  | internal : Code
  | notFound : Code
  | invalidArgument : Code
  | alreadyExists : Code
  deriving DecidableEq

namespace UserServer

/-- Embeds `UserServer.CreateUser`: any service error becomes `codes.Internal`. -/
def CreateUser (svcRes : Except StoreErr User) : Except Code User :=
  match svcRes with
  | .error _ => .error Code.internal
  | .ok u => .ok u

/-- Embeds `UserServer.GetUser`: any service error becomes `codes.NotFound`. -/
def GetUser (svcRes : Except StoreErr User) : Except Code User :=
  match svcRes with
  | .error _ => .error Code.notFound
  | .ok u => .ok u

/-- Embeds `UserServer.ListUsers`: clamp `pageSize` from above by 100 and `page`
from below by 1 (Go's built-in `min`/`max`), call the service, map any
error to `codes.Internal`. -/
def ListUsers (svc : Int → Int → Except StoreErr (List User × Int))
    (reqPage reqPageSize : Int) : Except Code (List User × Int) :=
  let pageSize := min reqPageSize 100
  let page := max reqPage 1
  match svc page pageSize with
  | .error _ => .error Code.internal
  | .ok r => .ok r

/-- Embeds `UserServer.UpdateUser`: any service error becomes `codes.Internal`. -/
def UpdateUser (svcRes : Except StoreErr User) : Except Code User :=
  match svcRes with
  | .error _ => .error Code.internal
  | .ok u => .ok u

/-- Embeds `UserServer.DeleteUser`: any service error becomes `codes.Internal`. -/
def DeleteUser (svcRes : Except StoreErr Unit) : Except Code Unit :=
  match svcRes with
  | .error _ => .error Code.internal
  | .ok _ => .ok ()

end UserServer

/-! ### Codec correctness -/

theorem charDigit_digitChar (d : Nat) (h : d < 10) : charDigit (digitChar d) = some d := by
  interval_cases d <;> decide

theorem digitChar_ne_bar (d : Nat) (h : d < 10) : digitChar d ≠ '|' := by
  interval_cases d <;> decide

theorem digitChar_ne_minus (d : Nat) (h : d < 10) : digitChar d ≠ '-' := by
  interval_cases d <;> decide

theorem natDigitsGo_fuel (f1 : Nat) : ∀ f2 n acc, n ≤ f1 → n ≤ f2 →
    natDigitsGo f1 n acc = natDigitsGo f2 n acc := by
  induction f1 with
  | zero =>
      intro f2 n acc h1 h2
      have hn : n = 0 := Nat.le_zero.mp h1
      subst hn
      cases f2 <;> simp [natDigitsGo]
  | succ f1 ih =>
      intro f2 n acc h1 h2
      cases f2 with
      | zero =>
          have hn : n = 0 := Nat.le_zero.mp h2
          subst hn
          simp [natDigitsGo]
      | succ f2 =>
          by_cases h : n < 10
          · simp [natDigitsGo, h]
          · simp only [natDigitsGo, if_neg h]
            exact ih f2 (n / 10) _ (by omega) (by omega)

theorem natDigitsGo_append (f : Nat) : ∀ n acc,
    natDigitsGo f n acc = natDigitsGo f n [] ++ acc := by
  induction f with
  | zero => intro n acc; simp [natDigitsGo]
  | succ f ih =>
      intro n acc
      by_cases h : n < 10
      · simp [natDigitsGo, h]
      · simp only [natDigitsGo, if_neg h]
        rw [ih (n / 10) (digitChar (n % 10) :: acc), ih (n / 10) [digitChar (n % 10)]]
        simp

theorem natDigits_unfold (n : Nat) :
    natDigits n = if n < 10 then [digitChar n]
      else natDigits (n / 10) ++ [digitChar (n % 10)] := by
  by_cases h : n < 10
  · rw [if_pos h]
    cases n <;> simp [natDigits, natDigitsGo, h]
  · rw [if_neg h]
    cases n with
    | zero => omega
    | succ m =>
        have h10 : (m + 1) / 10 ≤ m := by omega
        calc natDigits (m + 1)
            = natDigitsGo m ((m + 1) / 10) [digitChar ((m + 1) % 10)] := by
              simp [natDigits, natDigitsGo, h]
          _ = natDigitsGo m ((m + 1) / 10) [] ++ [digitChar ((m + 1) % 10)] :=
              natDigitsGo_append m ((m + 1) / 10) [digitChar ((m + 1) % 10)]
          _ = natDigitsGo ((m + 1) / 10) ((m + 1) / 10) [] ++ [digitChar ((m + 1) % 10)] := by
              rw [natDigitsGo_fuel m ((m + 1) / 10) ((m + 1) / 10) [] h10 (Nat.le_refl _)]
          _ = natDigits ((m + 1) / 10) ++ [digitChar ((m + 1) % 10)] := rfl

theorem mem_natDigits (n : Nat) : ∀ c ∈ natDigits n, ∃ d, d < 10 ∧ c = digitChar d := by
  induction n using Nat.strong_induction_on with
  | _ n ih =>
      intro c hc
      rw [natDigits_unfold] at hc
      by_cases h : n < 10
      · rw [if_pos h] at hc
        simp only [List.mem_singleton] at hc
        exact ⟨n, h, hc⟩
      · rw [if_neg h] at hc
        rcases List.mem_append.mp hc with h1 | h1
        · exact ih (n / 10) (by omega) c h1
        · simp only [List.mem_singleton] at h1
          exact ⟨n % 10, by omega, h1⟩

theorem natDigits_ne_nil (n : Nat) : natDigits n ≠ [] := by
  rw [natDigits_unfold]
  by_cases h : n < 10 <;> simp [h]

theorem digitsToNatAux_append (xs : List Char) : ∀ ys a,
    digitsToNatAux (xs ++ ys) a
      = (digitsToNatAux xs a).bind (fun a2 => digitsToNatAux ys a2) := by
  induction xs with
  | nil => intro ys a; simp [digitsToNatAux]
  | cons c cs ih =>
      intro ys a
      cases h : charDigit c <;> simp [digitsToNatAux, h, ih]

theorem digitsToNatAux_natDigits (n : Nat) : digitsToNatAux (natDigits n) 0 = some n := by
  induction n using Nat.strong_induction_on with
  | _ n ih =>
      rw [natDigits_unfold]
      by_cases h : n < 10
      · rw [if_pos h]
        simp [digitsToNatAux, charDigit_digitChar n h]
      · rw [if_neg h]
        rw [digitsToNatAux_append, ih (n / 10) (by omega)]
        simp [digitsToNatAux, charDigit_digitChar (n % 10) (by omega)]
        omega

theorem digitsToNat_natDigits (n : Nat) : digitsToNat (natDigits n) = some n := by
  rw [digitsToNat, if_neg (natDigits_ne_nil n)]
  exact digitsToNatAux_natDigits n

theorem decIntChars_intChars (i : Int) : decIntChars (intChars i) = some i := by
  by_cases h : i < 0
  · rw [intChars, if_pos h]
    rw [decIntChars]
    rw [if_pos rfl, digitsToNat_natDigits]
    simp only [Option.map_some', Int.ofNat_eq_natCast]
    congr 1
    omega
  · rw [intChars, if_neg h]
    cases hnd : natDigits i.toNat with
    | nil => exact absurd hnd (natDigits_ne_nil _)
    | cons c cs =>
        have hcmem : c ∈ natDigits i.toNat := by rw [hnd]; exact List.mem_cons_self ..
        obtain ⟨d, hd, hcd⟩ := mem_natDigits _ c hcmem
        have hne : c ≠ '-' := hcd ▸ digitChar_ne_minus d hd
        rw [decIntChars, if_neg hne, ← hnd, digitsToNat_natDigits]
        simp only [Option.map_some', Int.ofNat_eq_natCast]
        congr 1
        omega

theorem bar_not_mem_intChars (i : Int) : '|' ∉ intChars i := by
  intro hmem
  rw [intChars] at hmem
  by_cases h : i < 0
  · rw [if_pos h] at hmem
    rcases List.mem_cons.mp hmem with h1 | h1
    · exact absurd h1.symm (by decide)
    · obtain ⟨d, hd, hcd⟩ := mem_natDigits _ _ h1
      exact digitChar_ne_bar d hd hcd.symm
  · rw [if_neg h] at hmem
    obtain ⟨d, hd, hcd⟩ := mem_natDigits _ _ hmem
    exact digitChar_ne_bar d hd hcd.symm

theorem splitAtBar_append (xs : List Char) (rest : List Char) (hxs : '|' ∉ xs) :
    splitAtBar (xs ++ '|' :: rest) = some (xs, rest) := by
  induction xs with
  | nil => simp [splitAtBar]
  | cons c cs ih =>
      have hc : c ≠ '|' := fun hc => hxs (hc ▸ List.mem_cons_self ..)
      have hcs : '|' ∉ cs := fun h => hxs (List.mem_cons_of_mem _ h)
      simp only [List.cons_append, splitAtBar, if_neg hc, List.append_eq, ih hcs, Option.map_some']

theorem unescape_escapeChars (s : List Char) : ∀ rest,
    unescapeUntilBar (escapeChars s ++ '|' :: rest) = some (s, rest) := by
  induction s with
  | nil =>
      intro rest
      simp only [escapeChars, List.nil_append]
      rw [unescapeUntilBar.eq_def]
      simp +decide
  | cons c cs ih =>
      intro rest
      by_cases h1 : c = '\\'
      · subst h1
        simp only [escapeChars, escChar, if_pos rfl, List.cons_append, List.nil_append]
        rw [unescapeUntilBar.eq_def]
        simp +decide [ih rest]
      · by_cases h2 : c = '|'
        · subst h2
          simp only [escapeChars, List.cons_append, List.nil_append]
          rw [show escChar '|' = ['\\', 'p'] by decide]
          simp only [List.cons_append, List.nil_append]
          rw [unescapeUntilBar.eq_def]
          simp +decide [ih rest]
        · simp only [escapeChars, escChar, if_neg h1, if_neg h2, List.cons_append, List.nil_append]
          rw [unescapeUntilBar.eq_def]
          simp [h1, h2, ih rest]

theorem unmarshal_marshalUser (u : User) : unmarshalUser (marshalUser u) = some u := by
  obtain ⟨uid, ⟨ed⟩, ⟨nd⟩, ca, ua⟩ := u
  simp only [marshalUser, unmarshalUser]
  rw [splitAtBar_append _ _ (bar_not_mem_intChars uid)]
  simp only [Option.some_bind]
  rw [decIntChars_intChars]
  simp only [Option.some_bind]
  rw [splitAtBar_append _ _ (bar_not_mem_intChars ca)]
  simp only [Option.some_bind]
  rw [decIntChars_intChars]
  simp only [Option.some_bind]
  rw [splitAtBar_append _ _ (bar_not_mem_intChars ua)]
  simp only [Option.some_bind]
  rw [decIntChars_intChars]
  simp only [Option.some_bind]
  rw [unescape_escapeChars]
  simp only [Option.some_bind]
  rw [unescape_escapeChars]
  simp only [Option.some_bind]
  rfl

theorem marshalUser_ne_empty (u : User) : marshalUser u ≠ "" := by
  intro h
  have hd := congrArg String.data h
  simp [marshalUser] at hd

/-! ### Service-level lemmas -/

theorem getUser_eq (env : CacheEnv) (storeGet : Except StoreErr User) (id : Int) :
    UserService.GetUser env storeGet id =
      match cacheHitValue (env.getRes (userKey id)) with
      | some u => (.ok u, [CacheOp.get (userKey id)])
      | none =>
          match storeGet with
          | .error e => (.error e, [CacheOp.get (userKey id)])
          | .ok u => (.ok u, [CacheOp.get (userKey id),
              CacheOp.set (userKey id) (marshalUser u) 300]) := by
  simp only [UserService.GetUser, cacheHitValue]
  cases henv : env.getRes (userKey id) with
  | error e => cases storeGet <;> rfl
  | ok cached =>
      simp only []
      by_cases hc : cached = ""
      · subst hc
        simp only [ne_eq, not_true_eq_false, if_false]
      · rw [if_pos hc, if_pos hc]

/-! ### Sortedness of the repository listing -/

theorem mem_insertByCreatedDesc (u x : User) (l : List User)
    (h : x ∈ insertByCreatedDesc u l) : x = u ∨ x ∈ l := by
  induction l with
  | nil => simpa [insertByCreatedDesc] using h
  | cons v vs ih =>
      rw [insertByCreatedDesc] at h
      by_cases hc : v.createdAt ≤ u.createdAt
      · rw [if_pos hc] at h
        rcases List.mem_cons.mp h with h1 | h1
        · exact Or.inl h1
        · exact Or.inr h1
      · rw [if_neg hc] at h
        rcases List.mem_cons.mp h with h1 | h1
        · exact Or.inr (h1 ▸ List.mem_cons_self ..)
        · rcases ih h1 with h2 | h2
          · exact Or.inl h2
          · exact Or.inr (List.mem_cons_of_mem _ h2)

theorem pairwise_insertByCreatedDesc (u : User) (l : List User)
    (h : l.Pairwise (fun a b => b.createdAt ≤ a.createdAt)) :
    (insertByCreatedDesc u l).Pairwise (fun a b => b.createdAt ≤ a.createdAt) := by
  induction l with
  | nil => simp [insertByCreatedDesc]
  | cons v vs ih =>
      rw [insertByCreatedDesc]
      by_cases hc : v.createdAt ≤ u.createdAt
      · rw [if_pos hc]
        refine List.Pairwise.cons ?_ h
        intro y hy
        rcases List.mem_cons.mp hy with h1 | h1
        · subst h1; exact hc
        · exact le_trans ((List.pairwise_cons.mp h).1 y h1) hc
      · rw [if_neg hc]
        refine List.Pairwise.cons ?_ (ih (List.pairwise_cons.mp h).2)
        intro y hy
        rcases mem_insertByCreatedDesc u y vs hy with h1 | h1
        · subst h1; omega
        · exact (List.pairwise_cons.mp h).1 y h1

theorem pairwise_orderByCreatedDesc (l : List User) :
    (orderByCreatedDesc l).Pairwise (fun a b => b.createdAt ≤ a.createdAt) := by
  induction l with
  | nil => simp [orderByCreatedDesc]
  | cons u us ih => exact pairwise_insertByCreatedDesc u _ ih

/-! ### Concrete fixtures -/

/-- A cache whose every operation fails (total outage); a get error also
covers a plain miss (`redis.Nil`). -/
def envAllErr : CacheEnv :=
  { getRes := fun _ => .error (), setRes := fun _ _ => .error (), delRes := fun _ => .error () }

/-- A sample user. -/
def sampleUser : User :=
  { id := 1, email := "a@x.com", name := "A", createdAt := 3, updatedAt := 4 }

/-- A cache warm for `sampleUser` under its per-id key. -/
def envWarm : CacheEnv :=
  { getRes := fun k => if k = userKey 1 then .ok (marshalUser sampleUser) else .error (),
    setRes := fun _ _ => .ok (), delRes := fun _ => .ok () }

/-- Three users with increasing creation instants. -/
def userA : User := { id := 1, email := "a@x.com", name := "A", createdAt := 1, updatedAt := 1 }

def userB : User := { id := 2, email := "b@x.com", name := "B", createdAt := 2, updatedAt := 2 }

def userC : User := { id := 3, email := "c@x.com", name := "C", createdAt := 3, updatedAt := 3 }

/-- A three-user database. -/
def db3 : Db := { rows := [userA, userB, userC], nextId := 4 }

/-- The empty database. -/
def dbEmpty : Db := { rows := [], nextId := 1 }

/-- A one-user database holding `userA`. -/
def dbAlice : Db := { rows := [userA], nextId := 2 }

/-! ### The claims -/

/-- C1: a successful `UpdateUser(id, ...)` or `DeleteUser(id)` issues,
before returning, exactly the two cache deletions of the per-id key
`user:<id>` and of `users:list`; whenever the store operation fails, the
operation returns the error and issues no cache mutation, so any cache
state is left unchanged. -/
theorem c1_update_delete_two_key_invalidation (env : CacheEnv) (id : Int)
    (email name : String) (now : Int) (u0 : User) (e : StoreErr)
    (su : Except StoreErr Unit) (st : List (String × String)) :
    (UserService.UpdateUser env id email name now (.ok u0) (.ok ())).2
        = [CacheOp.del ("user:" ++ toString id), CacheOp.del ("users:list")]
  ∧ (UserService.DeleteUser env id (.ok ())).2
        = [CacheOp.del ("user:" ++ toString id), CacheOp.del ("users:list")]
  ∧ UserService.UpdateUser env id email name now (.error e) su = (.error e, [])
  ∧ UserService.UpdateUser env id email name now (.ok u0) (.error e) = (.error e, [])
  ∧ UserService.DeleteUser env id (.error e) = (.error e, [])
  ∧ applyCacheOps st (UserService.UpdateUser env id email name now (.error e) su).2 = st
  ∧ applyCacheOps st (UserService.UpdateUser env id email name now (.ok u0) (.error e)).2 = st
  ∧ applyCacheOps st (UserService.DeleteUser env id (.error e)).2 = st :=
  ⟨rfl, rfl, rfl, rfl, rfl, rfl, rfl, rfl⟩

/-- C2: cache behaviour never escalates into an operation failure: a
`GetUser` whose cache leg yields no usable hit returns exactly the store's
response; a `GetUser` error is always the store's error; and the results
of `CreateUser`, `UpdateUser` and `DeleteUser` are identical under any two
cache behaviours (set and delete outcomes are discarded by the code). -/
theorem c2_cache_errors_never_escalate :
    (∀ (env : CacheEnv) (storeGet : Except StoreErr User) (id : Int),
        cacheHitValue (env.getRes (userKey id)) = none →
          (UserService.GetUser env storeGet id).1 = storeGet)
  ∧ (∀ (env : CacheEnv) (storeGet : Except StoreErr User) (id : Int) (e : StoreErr),
        (UserService.GetUser env storeGet id).1 = .error e → storeGet = .error e)
  ∧ (∀ (env1 env2 : CacheEnv) (email name : String) (n1 n2 : Int)
        (sc : Except StoreErr Int),
        (UserService.CreateUser env1 email name n1 n2 sc).1
          = (UserService.CreateUser env2 email name n1 n2 sc).1)
  ∧ (∀ (env1 env2 : CacheEnv) (id : Int) (email name : String) (now : Int)
        (sg : Except StoreErr User) (su : Except StoreErr Unit),
        (UserService.UpdateUser env1 id email name now sg su).1
          = (UserService.UpdateUser env2 id email name now sg su).1)
  ∧ (∀ (env1 env2 : CacheEnv) (id : Int) (sd : Except StoreErr Unit),
        (UserService.DeleteUser env1 id sd).1 = (UserService.DeleteUser env2 id sd).1) := by
  refine ⟨?_, ?_, ?_, ?_, ?_⟩
  · intro env storeGet id h
    rw [getUser_eq, h]
    cases storeGet <;> rfl
  · intro env storeGet id e h
    rw [getUser_eq] at h
    cases hh : cacheHitValue (env.getRes (userKey id)) with
    | some u => rw [hh] at h; exact absurd h (by simp)
    | none =>
        rw [hh] at h
        cases storeGet with
        | ok u => exact absurd h (by simp)
        | error e2 => exact h
  · intro env1 env2 email name n1 n2 sc
    cases sc <;> rfl
  · intro env1 env2 id email name now sg su
    cases sg <;> cases su <;> rfl
  · intro env1 env2 id sd
    cases sd <;> rfl

/-- C2 witness: with a fully failing cache, `GetUser` returns the store's
user, and a `GetUser` error implies the store erred. -/
theorem c2_witness :
    (UserService.GetUser envAllErr (.ok sampleUser) 1).1 = .ok sampleUser :=
  c2_cache_errors_never_escalate.1 envAllErr (.ok sampleUser) 1 rfl

/-- C3: a successful `CreateUser` issues exactly one cache deletion, of
the aggregate key `users:list` (in particular it writes no per-id cache
entry); on store failure it returns the error and issues no cache command
at all, leaving any cache state unchanged. -/
theorem c3_create_invalidates_only_list_key (env : CacheEnv) (email name : String)
    (now1 now2 : Int) (newId : Int) (e : StoreErr) (st : List (String × String)) :
    (UserService.CreateUser env email name now1 now2 (.ok newId)).2
        = [CacheOp.del ("users:list")]
  ∧ (∀ (k v : String) (ttl : Int),
        CacheOp.set k v ttl ∉ (UserService.CreateUser env email name now1 now2 (.ok newId)).2)
  ∧ UserService.CreateUser env email name now1 now2 (.error e) = (.error e, [])
  ∧ applyCacheOps st (UserService.CreateUser env email name now1 now2 (.error e)).2 = st :=
  ⟨rfl, fun k v ttl h => by simp [UserService.CreateUser] at h, rfl, rfl⟩

/-- C4: `GetUser(id)` returns the same user from a warm cache (the cached
snapshot of `u` deserializes back to `u`, the store is not consulted) as
from a cold cache (store read of `u`): the marshal/unmarshal round trip
through the cache preserves all fields. -/
theorem c4_warm_cold_round_trip (env : CacheEnv) (id : Int) (u : User) :
    (env.getRes (userKey id) = .ok (marshalUser u) →
        ∀ storeGet : Except StoreErr User, (UserService.GetUser env storeGet id).1 = .ok u)
  ∧ (cacheHitValue (env.getRes (userKey id)) = none →
        (UserService.GetUser env (.ok u) id).1 = .ok u) := by
  constructor
  · intro h storeGet
    have hh : cacheHitValue (env.getRes (userKey id)) = some u := by
      rw [h, cacheHitValue]
      rw [if_pos (marshalUser_ne_empty u), unmarshal_marshalUser]
    rw [getUser_eq, hh]
  · intro h
    rw [getUser_eq, h]

/-- C4 witness: user 1 read through a warm cache and through a cold cache
with the store holding `sampleUser` yields `sampleUser` both ways. -/
theorem c4_witness :
    (UserService.GetUser envWarm (.error .notFound) 1).1 = .ok sampleUser
  ∧ (UserService.GetUser envAllErr (.ok sampleUser) 1).1 = .ok sampleUser :=
  ⟨(c4_warm_cold_round_trip envWarm 1 sampleUser).1 (by simp [envWarm]) (.error .notFound),
   (c4_warm_cold_round_trip envAllErr 1 sampleUser).2 rfl⟩

/-- A store listing that answers the empty page exactly when queried with
a limit of at least 1 and a non-negative offset, and fails otherwise;
used to observe the arguments the pipeline hands the store. -/
def limitDetector : Int → Int → Except StoreErr (List User) :=
  fun limit offset => if 1 ≤ limit ∧ 0 ≤ offset then .ok [] else .error .connFailure

/-- C5 counterexample: for the inbound request page = 1, pageSize = 0 the
pipeline queries the store with a limit below 1 — the handler only clamps
`pageSize` from above (`min pageSize 100`) and the service does not clamp
at all, so the claimed invariant 1 ≤ pageSize fails at the store. -/
theorem c5_counterexample :
    UserServer.ListUsers
      (fun page pageSize => UserService.ListUsers limitDetector (.ok 0) page pageSize)
      1 0 = .error Code.internal := rfl

/-- C5 as amended: the handler clamps `page` from below by 1 and
`pageSize` only from above by 100 (an inbound pageSize below 1 passes
through unclamped), and the service performs no defensive clamping: it
queries the store with limit = pageSize and offset = (page − 1) × pageSize
exactly as received. -/
theorem c5_amended_clamping (reqPage reqPageSize : Int)
    (sl : Int → Int → Except StoreErr (List User)) (sc : Except StoreErr Int) :
    1 ≤ max reqPage 1
  ∧ min reqPageSize 100 ≤ 100
  ∧ (1 ≤ reqPageSize → 1 ≤ min reqPageSize 100)
  ∧ UserServer.ListUsers (fun page pageSize => UserService.ListUsers sl sc page pageSize)
      reqPage reqPageSize
      = (match UserService.ListUsers sl sc (max reqPage 1) (min reqPageSize 100) with
         | .error _ => .error Code.internal
         | .ok r => .ok r)
  ∧ UserService.ListUsers sl sc (max reqPage 1) (min reqPageSize 100)
      = UserService.ListUsers
          (fun _ _ => sl (min reqPageSize 100) ((max reqPage 1 - 1) * min reqPageSize 100))
          sc (max reqPage 1) (min reqPageSize 100) :=
  ⟨le_max_right reqPage 1, min_le_right reqPageSize 100,
   fun h => le_min h (by norm_num), rfl, rfl⟩

/-- C5 witness: at the inbound request page = 0, pageSize = 5 the clamped
values are page = 1, pageSize = 5, within the claimed bounds. -/
theorem c5_witness : 1 ≤ min (5 : Int) 100 :=
  (c5_amended_clamping 0 5 limitDetector (.ok 0)).2.2.1 (by norm_num)

/-- C6 counterexample: a create whose email duplicates an existing user's
fails in the store with a uniqueness violation, and the handler surfaces
it as the Internal code, not Conflict/AlreadyExists. -/
theorem c6_counterexample :
    (CreateUserFull envAllErr dbAlice ("a@x.com") ("B") 5 6).1.1
        = .error StoreErr.uniqueViolation
  ∧ UserServer.CreateUser (CreateUserFull envAllErr dbAlice ("a@x.com") ("B") 5 6).1.1
        = .error Code.internal
  ∧ Code.internal ≠ Code.alreadyExists :=
  ⟨rfl, rfl, by decide⟩

/-- C6 as amended: the handlers map every service error uniformly — any
error of CreateUser, UpdateUser, DeleteUser (and ListUsers) to Internal,
and any error of GetUser to NotFound; no Conflict or InvalidArgument
mapping exists, so a duplicate-email create surfaces as Internal. -/
theorem c6_amended_error_mapping (e : StoreErr) (u : User) :
    UserServer.CreateUser (.error e) = .error Code.internal
  ∧ UserServer.UpdateUser (.error e) = .error Code.internal
  ∧ UserServer.DeleteUser (.error e) = .error Code.internal
  ∧ UserServer.GetUser (.error e) = .error Code.notFound
  ∧ UserServer.CreateUser (.ok u) = .ok u
  ∧ UserServer.GetUser (.ok u) = .ok u
  ∧ UserServer.UpdateUser (.ok u) = .ok u
  ∧ UserServer.DeleteUser (.ok ()) = .ok () :=
  ⟨rfl, rfl, rfl, rfl, rfl, rfl, rfl, rfl⟩

/-- C7: creating a user with empty email and empty name is accepted by
the whole path (no handler, service or store check rejects it — SQL `NOT
NULL` does not exclude the empty string), and the resulting row with
empty email and name is persisted; the claim that such a create fails is
violated by the code. -/
theorem c7_empty_email_name_accepted (env : CacheEnv) (db : Db) (now1 now2 : Int)
    (hfree : ∀ u ∈ db.rows, u.email ≠ "") :
    (CreateUserFull env db ("") ("") now1 now2).1.1
        = .ok { id := db.nextId, email := "", name := "", createdAt := now1, updatedAt := now2 }
  ∧ ∃ u ∈ (CreateUserFull env db ("") ("") now1 now2).2.rows,
      u.email = "" ∧ u.name = "" := by
  have hany : db.rows.any (fun u => u.email == "") = false := by
    rw [List.any_eq_false]
    intro u hu
    simpa using hfree u hu
  have hcreate : UserRepository.Create db ("") ("") now1 now2
      = .ok ({ rows := db.rows ++
                 [{ id := db.nextId, email := "", name := "",
                    createdAt := now1, updatedAt := now2 }],
               nextId := db.nextId + 1 }, db.nextId) := by
    rw [UserRepository.Create]
    simp [hany]
  constructor
  · simp only [CreateUserFull, hcreate]
    rfl
  · simp only [CreateUserFull, hcreate]
    exact ⟨{ id := db.nextId, email := "", name := "",
             createdAt := now1, updatedAt := now2 },
           List.mem_append_right _ (List.mem_singleton.mpr rfl), rfl, rfl⟩

/-- C7 witness: on the empty database the empty-fields create succeeds
and persists the empty-fields row. -/
theorem c7_witness :
    (CreateUserFull envAllErr dbEmpty ("") ("") 7 7).1.1
        = .ok { id := 1, email := "", name := "", createdAt := 7, updatedAt := 7 }
  ∧ ∃ u ∈ (CreateUserFull envAllErr dbEmpty ("") ("") 7 7).2.rows,
      u.email = "" ∧ u.name = "" :=
  c7_empty_email_name_accepted envAllErr dbEmpty 7 7 (by simp [dbEmpty])

/-- C8: for page ≥ 1 and pageSize ≥ 1 the service queries the store with
limit = pageSize and offset = (page − 1) × pageSize, and the page it
returns is the corresponding window of the rows ordered by creation
instant descending — in particular it is sorted newest-first. -/
theorem c8_pagination_offset_and_order (db : Db) (page pageSize : Int)
    (h1 : 1 ≤ page) (h2 : 1 ≤ pageSize) (users : List User) (total : Int)
    (hres : ListUsersFull db page pageSize = .ok (users, total)) :
    users = ((orderByCreatedDesc db.rows).drop ((page - 1) * pageSize).toNat).take
      pageSize.toNat
  ∧ users.Pairwise (fun a b => b.createdAt ≤ a.createdAt)
  ∧ total = (db.rows.length : Int)
  ∧ (∀ (sl : Int → Int → Except StoreErr (List User)) (sc : Except StoreErr Int),
        UserService.ListUsers sl sc page pageSize
          = UserService.ListUsers (fun _ _ => sl pageSize ((page - 1) * pageSize))
              sc page pageSize) := by
  have hoff : ¬(pageSize < 0 ∨ (page - 1) * pageSize < 0) := by
    push_neg
    exact ⟨by omega, mul_nonneg (by omega) (by omega)⟩
  have hlist : UserRepository.listRows db pageSize ((page - 1) * pageSize)
      = .ok (((orderByCreatedDesc db.rows).drop ((page - 1) * pageSize).toNat).take
          pageSize.toNat) := by
    rw [UserRepository.listRows, if_neg hoff]
  have hfull : ListUsersFull db page pageSize
      = .ok ((((orderByCreatedDesc db.rows).drop ((page - 1) * pageSize).toNat).take
          pageSize.toNat), (db.rows.length : Int)) := by
    simp only [ListUsersFull, UserService.ListUsers, hlist, UserRepository.Count]
  rw [hfull] at hres
  simp only [Except.ok.injEq, Prod.mk.injEq] at hres
  refine ⟨hres.1.symm, ?_, hres.2.symm, fun sl sc => rfl⟩
  rw [hres.1.symm]
  exact List.Pairwise.sublist
    ((List.take_sublist _ _).trans (List.drop_sublist _ _))
    (pairwise_orderByCreatedDesc db.rows)

/-- C8 witness: on the three-user fixture, page 1 of size 2 is the two
newest users, newest first, with total 3. -/
theorem c8_witness :
    [userC, userB] = ((orderByCreatedDesc db3.rows).drop (((1 : Int) - 1) * 2).toNat).take
      (2 : Int).toNat
  ∧ [userC, userB].Pairwise (fun a b => b.createdAt ≤ a.createdAt)
  ∧ (3 : Int) = (db3.rows.length : Int)
  ∧ (∀ (sl : Int → Int → Except StoreErr (List User)) (sc : Except StoreErr Int),
        UserService.ListUsers sl sc 1 2
          = UserService.ListUsers (fun _ _ => sl 2 (((1 : Int) - 1) * 2)) sc 1 2) :=
  c8_pagination_offset_and_order db3 1 2 (by norm_num) (by norm_num) [userC, userB] 3 rfl

/-- C9 counterexample: the Go code takes two separate `time.Now()`
readings (one for `CreatedAt`, one for `UpdatedAt`); on a run where the
clock advances between the two reads (first reading 0, second reading 1)
the created user has created_at = 0 and updated_at = 1, so the claimed
equality created_at = updated_at does not hold. -/
theorem c9_counterexample :
    (UserService.CreateUser envAllErr ("a@x.com") ("A") 0 1 (.ok 1)).1
        = .ok { id := 1, email := "a@x.com", name := "A", createdAt := 0, updatedAt := 1 }
  ∧ (0 : Int) ≠ 1 :=
  ⟨rfl, by decide⟩

/-- C9 as amended: `CreateUser` sets created_at from the first clock
reading and updated_at from the second, taken in immediate succession;
whenever the clock returns the same instant for both reads the two
timestamps are equal. -/
theorem c9_amended_timestamps (env : CacheEnv) (email name : String)
    (now1 now2 : Int) (newId : Int) :
    (UserService.CreateUser env email name now1 now2 (.ok newId)).1
        = .ok { id := newId, email := email, name := name,
                createdAt := now1, updatedAt := now2 }
  ∧ (now1 = now2 →
      ∀ u : User, (UserService.CreateUser env email name now1 now2 (.ok newId)).1 = .ok u →
        u.createdAt = u.updatedAt) := by
  refine ⟨rfl, fun h u hu => ?_⟩
  have : u = { id := newId, email := email, name := name,
               createdAt := now1, updatedAt := now2 } := by
    have := hu.symm.trans (rfl :
      (UserService.CreateUser env email name now1 now2 (.ok newId)).1
        = .ok { id := newId, email := email, name := name,
                createdAt := now1, updatedAt := now2 })
    exact (Except.ok.injEq .. ▸ this : _)
  rw [this]
  exact h

/-- C9 witness: with both clock readings equal to 5, the created user has
created_at = updated_at. -/
theorem c9_witness :
    (UserService.CreateUser envAllErr ("a@x.com") ("A") 5 5 (.ok 1)).1
        = .ok { id := 1, email := "a@x.com", name := "A", createdAt := 5, updatedAt := 5 }
  ∧ ({ id := 1, email := "a@x.com", name := "A", createdAt := 5,
       updatedAt := 5 } : User).createdAt
      = ({ id := 1, email := "a@x.com", name := "A", createdAt := 5,
           updatedAt := 5 } : User).updatedAt :=
  ⟨(c9_amended_timestamps envAllErr ("a@x.com") ("A") 5 5 1).1,
   (c9_amended_timestamps envAllErr ("a@x.com") ("A") 5 5 1).2 rfl _
     (c9_amended_timestamps envAllErr ("a@x.com") ("A") 5 5 1).1⟩

/-- C10: deleting an identifier with no corresponding row succeeds (the
store's DELETE of zero rows is not an error), still issues both cache
deletions of `user:<id>` and `users:list`, and leaves the database
unchanged. -/
theorem c10_delete_absent_id_succeeds (env : CacheEnv) (db : Db) (id : Int)
    (habs : ∀ u ∈ db.rows, u.id ≠ id) :
    (DeleteUserFull env db id).1.1 = .ok ()
  ∧ (DeleteUserFull env db id).1.2
      = [CacheOp.del ("user:" ++ toString id), CacheOp.del ("users:list")]
  ∧ (DeleteUserFull env db id).2 = db := by
  refine ⟨rfl, rfl, ?_⟩
  have hflt : db.rows.filter (fun r => r.id != id) = db.rows := by
    rw [List.filter_eq_self]
    intro u hu
    simpa using habs u hu
  simp only [DeleteUserFull, UserRepository.Delete, hflt]

/-- C10 witness: deleting the absent id 9 from the three-user fixture
succeeds, invalidates both keys, and leaves the rows untouched. -/
theorem c10_witness :
    (DeleteUserFull envAllErr db3 9).1.1 = .ok ()
  ∧ (DeleteUserFull envAllErr db3 9).1.2
      = [CacheOp.del ("user:" ++ toString (9 : Int)), CacheOp.del ("users:list")]
  ∧ (DeleteUserFull envAllErr db3 9).2 = db3 :=
  c10_delete_absent_id_succeeds envAllErr db3 9 (by decide)
